import Mathlib

/-!
Verification of the Registry Synchronization & Retention Engine
(terraform-aws-tf-provider-synchronizer).

The development shallowly embeds the Python sources under `src/lambda/`:

* `cleanup_old_versions.py` — version parsing (`parse_version`), the
  retention planner (`cleanup_provider_versions`) and the per-version
  deletion loop (`delete_provider_version`);
* `download_and_upload.py` / `download_to_s3.py` — the artifact fetcher
  (`download_provider` / `download_provider_to_s3`, which share one control
  flow) and the publish protocol (`upload_to_hcp`);
* `check_version.py` / `upload_from_s3.py` — the existence probes
  (`check_version_on_hcp`, `check_provider_exists`).

HTTP calls are modelled by explicit environments mapping a request to its
outcome; `requests.raise_for_status` is modelled by collapsing a response
into `Except NetErr` (status ≥ 400 raises, i.e. `.error`).  Traces of the
remote calls a run performs are made explicit so that "called once",
"called before" and "never called" properties can be stated.
-/

namespace TFSync

/-! ### Python `int` on version components (`cleanup_old_versions.py:137`)

`int(p)` succeeds on an optional sign followed by decimal digits and raises
`ValueError` otherwise (we do not model the whitespace/underscore forms
Python also accepts, which never occur in version strings); failure is
`none`. -/

def digitsVal : List Char → Nat → Option Nat
  | [], acc => some acc
  | c :: cs, acc =>
    if c.isDigit then digitsVal cs (acc * 10 + (c.toNat - 48)) else none

def parseDigits (cs : List Char) : Option Nat :=
  match cs with
  | [] => none
  | _ => digitsVal cs 0

def pyInt (cs : List Char) : Option Int :=
  match cs with
  | '-' :: rest => (parseDigits rest).map (fun n => -(n : Int))
  | '+' :: rest => (parseDigits rest).map (fun n => (n : Int))
  | _ => (parseDigits cs).map (fun n => (n : Int))

/-! ### `parse_version` (`cleanup_old_versions.py:133-140`)

`version_string.lstrip('v')` drops every leading `'v'`; `.split('.')` is
`List.splitOn '.'` (both send `""` to `[""]` and keep empty pieces); the
tuple of `int` components is returned, and on any `ValueError` the sentinel
`(0, 0, 0)` is returned instead. -/

def parse_version (s : String) : List Int :=
  match ((s.data.dropWhile (· == 'v')).splitOn '.').mapM pyInt with
  | some parts => parts
  | none => [0, 0, 0]

/-- `True` exactly when every component converts, i.e. the `try` body of
`parse_version` does not fall into the `except` branch. -/
def parsesCleanly (s : String) : Bool :=
  (((s.data.dropWhile (· == 'v')).splitOn '.').mapM pyInt).isSome

/-! ### Python tuple comparison

`tuple < tuple` in Python is lexicographic; a strict prefix is *less* than
the longer tuple (no zero padding). -/

def tupleLt : List Int → List Int → Bool
  | [], [] => false
  | [], _ :: _ => true
  | _ :: _, [] => false
  | a :: as, b :: bs => if a < b then true else if b < a then false else tupleLt as bs

/-! ### Registry version records and the retention planner
(`cleanup_provider_versions`, `cleanup_old_versions.py:143-225`) -/

/-- One entry of the private registry's version listing:
`attributes.version` plus the rest of the raw attributes mapping, kept
opaque (an identifier) so that distinct records with equal version strings
stay distinct. -/
structure VersionRecord where
  version : String
  attrs : Nat
deriving DecidableEq, Repr

/-- `sorted(versions, key=lambda v: parse_version(...), reverse=True)`:
Python's stable sort, descending by parsed key (ties keep listing order).
`List.mergeSort` with `le a b := ¬ key a < key b` is exactly that stable
descending sort. -/
def sortDesc (versions : List VersionRecord) : List VersionRecord :=
  versions.mergeSort fun a b => !tupleLt (parse_version a.version) (parse_version b.version)

/-- `versions_to_keep` of `cleanup_provider_versions`: on
`len(versions) <= keep_count` the function returns early keeping
everything; otherwise the first `keep_count` of the descending sort
(`cleanup_old_versions.py:163-183`). -/
def retention_keep (versions : List VersionRecord) (keep_count : Nat) : List VersionRecord :=
  if versions.length ≤ keep_count then versions
  else (sortDesc versions).take keep_count

/-- `versions_to_delete`: empty on the early return, otherwise the
remainder of the descending sort (`cleanup_old_versions.py:163-184`). -/
def retention_delete (versions : List VersionRecord) (keep_count : Nat) : List VersionRecord :=
  if versions.length ≤ keep_count then []
  else (sortDesc versions).drop keep_count

/-! ### Deleting one version (`delete_provider_version`,
`cleanup_old_versions.py:94-130`)

The HTTP DELETE yields a status code; `raise_for_status` raises on
status ≥ 400.  The function returns `True` on success, catches the
`HTTPError` and returns `False` when the status is 404, and re-raises
(`none`) otherwise. -/

def delete_provider_version (status : Nat) : Option Bool :=
  if status < 400 then some true
  else if status = 404 then some false
  else none

/-! ### The deletion loop (`cleanup_old_versions.py:199-217`)

`deleter` maps a version string to the status code its DELETE returns.
In a dry run every version is recorded without calling the deleter;
otherwise the version is appended whenever `delete_provider_version`
returns (either `True` or `False`) and skipped when it raises, and the
loop always continues with the remaining versions. -/

def delete_loop (deleter : String → Nat) (dry_run : Bool) :
    List VersionRecord → List String
  | [] => []
  | v :: rest =>
    if dry_run then v.version :: delete_loop deleter dry_run rest
    else
      match delete_provider_version (deleter v.version) with
      | some _ => v.version :: delete_loop deleter dry_run rest
      | none => delete_loop deleter dry_run rest

/-- The dictionary `cleanup_provider_versions` returns (the fields the
claims speak about). -/
structure CleanupResult where
  total_versions : Nat
  deleted_versions : List String
  kept_versions : List String
deriving DecidableEq, Repr

def cleanup_provider_versions (versions : List VersionRecord) (keep_count : Nat)
    (deleter : String → Nat) (dry_run : Bool) : CleanupResult :=
  if versions.length ≤ keep_count then
    { total_versions := versions.length
      deleted_versions := []
      kept_versions := versions.map (·.version) }
  else
    { total_versions := versions.length
      deleted_versions := delete_loop deleter dry_run (retention_delete versions keep_count)
      kept_versions := (retention_keep versions keep_count).map (·.version) }

/-! ### Helper lemmas -/

theorem delete_loop_eq_filter (deleter : String → Nat) (l : List VersionRecord) :
    delete_loop deleter false l
      = (l.filter fun v => (delete_provider_version (deleter v.version)).isSome).map
          (·.version) := by
  induction l with
  | nil => rfl
  | cons v rest ih =>
    simp only [delete_loop]
    cases h : delete_provider_version (deleter v.version) with
    | none => simp [List.filter_cons, h, ih]
    | some b => simp [List.filter_cons, h, ih]

theorem tupleLt_sentinel_false (l : List Int) (h3 : 3 ≤ l.length)
    (hpos : ∀ c ∈ l, 0 ≤ c) : tupleLt l [0, 0, 0] = false := by
  match l, h3 with
  | a :: b :: c :: r, _ =>
    have ha : ¬ a < 0 := not_lt.mpr (hpos a (by simp))
    have hb : ¬ b < 0 := not_lt.mpr (hpos b (by simp))
    have hc : ¬ c < 0 := not_lt.mpr (hpos c (by simp))
    simp only [tupleLt, if_neg ha, if_neg hb, if_neg hc]
    by_cases h0a : 0 < a
    · simp [h0a]
    · by_cases h0b : 0 < b
      · simp [h0a, h0b]
      · by_cases h0c : 0 < c
        · simp [h0a, h0b, h0c]
        · simp only [if_neg h0a, if_neg h0b, if_neg h0c]
          cases r <;> rfl

theorem tupleLt_iff_lex (a b : List Int) :
    tupleLt a b = true ↔ List.Lex (· < ·) a b := by
  induction a generalizing b with
  | nil =>
    cases b with
    | nil =>
      constructor
      · intro h; exact absurd h (by simp [tupleLt])
      · intro h; cases h
    | cons y ys => simp [tupleLt]; exact List.Lex.nil
  | cons x xs ih =>
    cases b with
    | nil =>
      constructor
      · intro h; exact absurd h (by simp [tupleLt])
      · intro h; cases h
    | cons y ys =>
      simp only [tupleLt]
      by_cases hxy : x < y
      · simp only [if_pos hxy, true_iff]
        exact List.Lex.rel hxy
      · by_cases hyx : y < x
        · simp only [if_neg hxy, if_pos hyx]
          constructor
          · intro h; exact absurd h (by simp)
          · intro h
            cases h with
            | cons h => exact absurd hyx (lt_irrefl x)
            | rel h => exact absurd h hxy
        · have hxy' : x = y := le_antisymm (not_lt.mp hyx) (not_lt.mp hxy)
          subst hxy'
          simp only [if_neg hxy, if_neg hyx]
          rw [ih]
          constructor
          · intro h; exact List.Lex.cons h
          · intro h
            cases h with
            | cons h => exact h
            | rel h => exact absurd h hxy

/-! ### Claim theorems: retention and version comparison -/

/-- C1: for every version-record sequence `V` and keep-count `k`, the
retention planner's keep set has length `min k (len V)`; keep and delete
together are a permutation of `V` (no record duplicated or omitted); when
`len V ≤ k` everything is kept and nothing deleted; otherwise keep is the
first `k` of `V` sorted descending by parsed version and delete is the
remainder. -/
theorem retention_plan_partition (V : List VersionRecord) (k : Nat) :
    (retention_keep V k).length = min k V.length ∧
    ((retention_keep V k) ++ (retention_delete V k)).Perm V ∧
    (V.length ≤ k → retention_keep V k = V ∧ retention_delete V k = []) ∧
    (k < V.length → retention_keep V k = (sortDesc V).take k ∧
      retention_delete V k = (sortDesc V).drop k) := by
  by_cases h : V.length ≤ k
  · refine ⟨?_, ?_, fun _ => ⟨?_, ?_⟩, fun hk => absurd h (not_le.mpr hk)⟩
    · simp [retention_keep, h, Nat.min_eq_right h]
    · simp [retention_keep, retention_delete, h]
    · simp [retention_keep, h]
    · simp [retention_delete, h]
  · have hperm : (sortDesc V).Perm V := List.mergeSort_perm V _
    refine ⟨?_, ?_, fun hk => absurd hk h, fun _ => ⟨?_, ?_⟩⟩
    · simp only [retention_keep, if_neg h, List.length_take, sortDesc,
        List.length_mergeSort]
    · simp only [retention_keep, retention_delete, if_neg h,
        List.take_append_drop]
      exact hperm
    · simp [retention_keep, h]
    · simp [retention_delete, h]

/-- C3: during non-dry-run retention execution, the deleted-versions list
is exactly the delete set filtered to the records whose deletion call
returns (a 404 NotFound returns `False`, so such a version still appears
and the loop proceeds), while a record whose deletion raises contributes
nothing and the loop still continues with the rest; in particular every
delete-set record whose DELETE answers 404 appears in the result. -/
theorem cleanup_delete_error_tolerance (deleter : String → Nat)
    (V : List VersionRecord) (k : Nat) :
    (cleanup_provider_versions V k deleter false).deleted_versions
      = ((retention_delete V k).filter fun v =>
          (delete_provider_version (deleter v.version)).isSome).map (·.version) ∧
    ∀ v ∈ retention_delete V k, deleter v.version = 404 →
      v.version ∈ (cleanup_provider_versions V k deleter false).deleted_versions := by
  have hloop := delete_loop_eq_filter deleter (retention_delete V k)
  have hmain : (cleanup_provider_versions V k deleter false).deleted_versions
      = ((retention_delete V k).filter fun v =>
          (delete_provider_version (deleter v.version)).isSome).map (·.version) := by
    by_cases h : V.length ≤ k
    · simp [cleanup_provider_versions, retention_delete, h]
    · simp only [cleanup_provider_versions, if_neg h]
      exact hloop
  refine ⟨hmain, fun v hv h404 => ?_⟩
  rw [hmain]
  have : (delete_provider_version (deleter v.version)).isSome = true := by
    simp [delete_provider_version, h404]
  exact List.mem_map_of_mem _ (List.mem_filter.mpr ⟨hv, this⟩)

/-- C7 counterexample: `parse` is total and returns the sentinel `(0,0,0)`
on `"not-a-version"`, but the sentinel does not sort below the parsed key
of every valid version string: `"0.0"` parses cleanly to `(0,0)`, which
sorts strictly below the sentinel. -/
theorem parse_sentinel_not_below_all_valid :
    parse_version "not-a-version" = [0, 0, 0] ∧
    parsesCleanly "0.0" = true ∧
    tupleLt (parse_version "0.0") (parse_version "not-a-version") = true := by
  refine ⟨by decide, by decide, by decide⟩

/-- C7 (amended): for every input string, parse never raises — on any
structural failure it returns the sentinel `(0,0,0)` — and the sentinel
sorts below-or-equal the parsed key of any valid version string having at
least three components, none negative (valid versions with fewer
components, such as `"0.0"`, sort strictly below the sentinel instead). -/
theorem parse_total_and_sentinel_order (s t : String)
    (hs : parsesCleanly s = false)
    (ht : parsesCleanly t = true)
    (hlen : 3 ≤ (parse_version t).length)
    (hpos : ∀ c ∈ parse_version t, 0 ≤ c) :
    parse_version s = [0, 0, 0] ∧
    tupleLt (parse_version t) (parse_version s) = false := by
  have hnone : ((s.data.dropWhile (· == 'v')).splitOn '.').mapM pyInt = none := by
    cases hm : ((s.data.dropWhile (· == 'v')).splitOn '.').mapM pyInt with
    | none => rfl
    | some parts =>
      unfold parsesCleanly at hs
      rw [hm] at hs
      simp at hs
  have hsent : parse_version s = [0, 0, 0] := by
    unfold parse_version
    rw [hnone]
  refine ⟨hsent, ?_⟩
  rw [hsent]
  exact tupleLt_sentinel_false _ hlen hpos

/-- C7 amended witness at `s = "not-a-version"`, `t = "1.2.3"`. -/
theorem parse_total_and_sentinel_order_witness :
    parse_version "not-a-version" = [0, 0, 0] ∧
    tupleLt (parse_version "1.2.3") (parse_version "not-a-version") = false :=
  parse_total_and_sentinel_order "not-a-version" "1.2.3" (by decide) (by decide)
    (by decide) (by decide)

/-- C8 counterexample: parsed keys of different lengths are not compared
as if zero-padded — the keys of `"1.2"` and `"1.2.0"` do not compare
equal; the shorter is strictly less. -/
theorem version_compare_not_zero_padded :
    parse_version "1.2" = [1, 2] ∧
    parse_version "1.2.0" = [1, 2, 0] ∧
    tupleLt (parse_version "1.2") (parse_version "1.2.0") = true := by
  refine ⟨by decide, by decide, by decide⟩

/-- C8 (amended): comparison of parsed keys is the standard lexicographic
order on component lists with numeric component comparison — so
`parse "2.9.0" < parse "2.10.0"` and not conversely — but a shorter tuple
is not zero-padded: a strict prefix such as `parse "1.2"` compares
strictly less than `parse "1.2.0"`, not equal. -/
theorem version_compare_lexicographic :
    (∀ a b : List Int, tupleLt a b = true ↔ List.Lex (· < ·) a b) ∧
    tupleLt (parse_version "2.9.0") (parse_version "2.10.0") = true ∧
    tupleLt (parse_version "2.10.0") (parse_version "2.9.0") = false ∧
    tupleLt (parse_version "1.2") (parse_version "1.2.0") = true := by
  refine ⟨tupleLt_iff_lex, by decide, by decide, by decide⟩

/-! ## Artifact fetcher
(`download_provider`, `download_and_upload.py:122-182`, and the identical
control flow of `download_provider_to_s3`, `download_to_s3.py:103-170`;
the only difference between the two is the artifact sink — filesystem path
vs. S3 key — which the `path`/`location` strings stand for.) -/

/-- An HTTP failure: a response whose status made `raise_for_status`
raise, or a network-layer error (timeout, connection). -/
inductive NetErr
  | httpStatus (code : Nat)
  | transport
deriving DecidableEq, Repr

/-- The JSON body of
`GET /providers/{ns}/{provider}/{version}/download/{os}/{arch}`. -/
structure DownloadInfo where
  download_url : String
  shasums_url : Option String
  shasums_signature_url : Option String
deriving DecidableEq, Repr

structure Platform where
  os : String
  arch : String
deriving DecidableEq, Repr

/-- The remote side of the fetch: what the source registry answers for a
platform's download descriptor, and whether retrieving a given URL's
content succeeds. -/
structure FetchEnv where
  descriptor : String → String → Except NetErr DownloadInfo
  getFile : String → Except NetErr Unit

/-- One remote retrieval the fetcher performs, in order. -/
inductive FetchAction
  | descriptorFetch (os arch : String)
  | binaryFetch (url : String)
  | shasumsFetch (url : String)
  | sigFetch (url : String)
deriving DecidableEq, Repr

/-- One entry of `files['binaries']`. -/
structure BinaryEntry where
  os : String
  arch : String
  filename : String
  path : String
deriving DecidableEq, Repr

/-- The `files` dict (the ArtifactManifest): binaries in platform order
plus the optional shared checksum-manifest and signature locations. -/
structure Files where
  binaries : List BinaryEntry
  shasums : Option String
  signature : Option String
deriving DecidableEq, Repr

/-- The `if not shasums_downloaded: ... if shasums_url: download, set flag`
block (and its signature twin): skipped entirely once `done`; on a `none`
URL nothing happens; otherwise the URL is fetched, the location recorded
and the flag set. Returns the fetch trace and the new (flag, location). -/
def sharedFetch (env : FetchEnv) (mk : String → FetchAction) (path : String)
    (done : Bool) (stored : Option String) (urlOpt : Option String) :
    List FetchAction × Except NetErr (Bool × Option String) :=
  if done then ([], .ok (done, stored))
  else
    match urlOpt with
    | none => ([], .ok (done, stored))
    | some u =>
      match env.getFile u with
      | .error e => ([mk u], .error e)
      | .ok _ => ([mk u], .ok (true, some path))

/-- One iteration of the `for platform in platforms` loop of
`download_provider`: fetch the platform's download descriptor, fetch its
binary into the manifest, then run the two shared-artifact blocks.
Returns the retrieval trace and, unless a retrieval raised, the updated
flag pair and manifest. -/
def platformStep (env : FetchEnv) (provider version : String) (p : Platform)
    (shaDone sigDone : Bool) (acc : Files) :
    List FetchAction × Except NetErr (Bool × Bool × Files) :=
  match env.descriptor p.os p.arch with
  | .error e => ([.descriptorFetch p.os p.arch], .error e)
  | .ok info =>
    match env.getFile info.download_url with
    | .error e => ([.descriptorFetch p.os p.arch, .binaryFetch info.download_url], .error e)
    | .ok _ =>
      let filename := "terraform-provider-" ++ provider ++ "_" ++ version
          ++ "_" ++ p.os ++ "_" ++ p.arch ++ ".zip"
      let acc1 : Files := { acc with
        binaries := acc.binaries
          ++ [{ os := p.os, arch := p.arch, filename := filename, path := filename }] }
      let pre : List FetchAction :=
        [.descriptorFetch p.os p.arch, .binaryFetch info.download_url]
      match sharedFetch env FetchAction.shasumsFetch
          ("terraform-provider-" ++ provider ++ "_" ++ version ++ "_SHA256SUMS")
          shaDone acc1.shasums info.shasums_url with
      | (tr1, .error e) => (pre ++ tr1, .error e)
      | (tr1, .ok (shaDone', shaStored)) =>
        match sharedFetch env FetchAction.sigFetch
            ("terraform-provider-" ++ provider ++ "_" ++ version ++ "_SHA256SUMS.sig")
            sigDone acc1.signature info.shasums_signature_url with
        | (tr2, .error e) => (pre ++ tr1 ++ tr2, .error e)
        | (tr2, .ok (sigDone', sigStored)) =>
          (pre ++ tr1 ++ tr2,
            .ok (shaDone', sigDone', { acc1 with shasums := shaStored, signature := sigStored }))

/-- The `for platform in platforms` loop: iterations run in order, and the
first failing iteration aborts the whole fetch (the exception propagates
out of the `for`). -/
def downloadLoop (env : FetchEnv) (provider version : String) :
    List Platform → Bool → Bool → Files → List FetchAction × Except NetErr Files
  | [], _, _, acc => ([], .ok acc)
  | p :: rest, shaDone, sigDone, acc =>
    match platformStep env provider version p shaDone sigDone acc with
    | (tr, .error e) => (tr, .error e)
    | (tr, .ok (shaDone', sigDone', acc')) =>
      let next := downloadLoop env provider version rest shaDone' sigDone' acc'
      (tr ++ next.1, next.2)

/-- `download_provider`: the loop started with both flags down and the
empty manifest. -/
def download_provider (env : FetchEnv) (provider version : String)
    (platforms : List Platform) : List FetchAction × Except NetErr Files :=
  downloadLoop env provider version platforms false false
    { binaries := [], shasums := none, signature := none }

/-- The checksum-manifest URLs a trace fetched, in order. -/
def shasumsFetches (trace : List FetchAction) : List String :=
  trace.filterMap fun a => match a with | .shasumsFetch u => some u | _ => none

/-- The signature URLs a trace fetched, in order. -/
def sigFetches (trace : List FetchAction) : List String :=
  trace.filterMap fun a => match a with | .sigFetch u => some u | _ => none

/-- The checksum-manifest location platform `p`'s descriptor reports. -/
def descShasumsUrl (env : FetchEnv) (p : Platform) : Option String :=
  match env.descriptor p.os p.arch with
  | .ok info => info.shasums_url
  | .error _ => none

/-- The signature location platform `p`'s descriptor reports. -/
def descSigUrl (env : FetchEnv) (p : Platform) : Option String :=
  match env.descriptor p.os p.arch with
  | .ok info => info.shasums_signature_url
  | .error _ => none

/-- The first non-null checksum-manifest location across the platform
loop. -/
def firstShasumsUrl (env : FetchEnv) (platforms : List Platform) : Option String :=
  platforms.findSome? (descShasumsUrl env)

/-- The first non-null signature location across the platform loop. -/
def firstSigUrl (env : FetchEnv) (platforms : List Platform) : Option String :=
  platforms.findSome? (descSigUrl env)

@[simp] theorem sharedFetch_done (env : FetchEnv) (mk : String → FetchAction)
    (path : String) (stored : Option String) (urlOpt : Option String) :
    sharedFetch env mk path true stored urlOpt = ([], .ok (true, stored)) := rfl

@[simp] theorem sharedFetch_noUrl (env : FetchEnv) (mk : String → FetchAction)
    (path : String) (stored : Option String) :
    sharedFetch env mk path false stored none = ([], .ok (false, stored)) := rfl

theorem sharedFetch_some (env : FetchEnv) (mk : String → FetchAction)
    (path : String) (stored : Option String) (u : String) :
    sharedFetch env mk path false stored (some u)
      = match env.getFile u with
        | .error e => ([mk u], .error e)
        | .ok _ => ([mk u], .ok (true, some path)) := rfl

@[simp] theorem shasumsFetches_nil : shasumsFetches [] = [] := rfl

@[simp] theorem sigFetches_nil : sigFetches [] = [] := rfl

@[simp] theorem shasumsFetches_append (a b : List FetchAction) :
    shasumsFetches (a ++ b) = shasumsFetches a ++ shasumsFetches b :=
  List.filterMap_append a b _

@[simp] theorem sigFetches_append (a b : List FetchAction) :
    sigFetches (a ++ b) = sigFetches a ++ sigFetches b :=
  List.filterMap_append a b _

theorem platformStep_trace (env : FetchEnv) (provider version : String) (p : Platform)
    (shaDone sigDone : Bool) (acc : Files) (sha' sig' : Bool) (acc' : Files)
    (h : (platformStep env provider version p shaDone sigDone acc).2
        = .ok (sha', sig', acc')) :
    shasumsFetches (platformStep env provider version p shaDone sigDone acc).1
      = (if shaDone then [] else (descShasumsUrl env p).toList) ∧
    sigFetches (platformStep env provider version p shaDone sigDone acc).1
      = (if sigDone then [] else (descSigUrl env p).toList) ∧
    sha' = (shaDone || (descShasumsUrl env p).isSome) ∧
    sig' = (sigDone || (descSigUrl env p).isSome) := by
  cases hdesc : env.descriptor p.os p.arch with
  | error e =>
    simp only [platformStep, hdesc] at h
    exact Except.noConfusion h
  | ok info =>
    cases hbin : env.getFile info.download_url with
    | error e =>
      simp only [platformStep, hdesc, hbin] at h
      exact Except.noConfusion h
    | ok _ =>
      simp only [platformStep, hdesc, hbin] at h ⊢
      cases shaDone with
      | true =>
        simp only [sharedFetch_done] at h ⊢
        cases sigDone with
        | true =>
          simp only [sharedFetch_done] at h ⊢
          cases h
          simp [shasumsFetches, sigFetches, descShasumsUrl, descSigUrl, hdesc]
        | false =>
          cases hssu : info.shasums_signature_url with
          | none =>
            simp only [hssu, sharedFetch_noUrl] at h ⊢
            cases h
            simp [shasumsFetches, sigFetches, descShasumsUrl, descSigUrl, hdesc, hssu]
          | some u2 =>
            simp only [hssu, sharedFetch_some] at h ⊢
            cases hget2 : env.getFile u2 with
            | error e =>
              simp only [hget2] at h
              exact Except.noConfusion h
            | ok _ =>
              simp only [hget2] at h ⊢
              cases h
              simp [shasumsFetches, sigFetches, descShasumsUrl, descSigUrl, hdesc, hssu]
      | false =>
        cases hsu : info.shasums_url with
        | none =>
          simp only [hsu, sharedFetch_noUrl] at h ⊢
          cases sigDone with
          | true =>
            simp only [sharedFetch_done] at h ⊢
            cases h
            simp [shasumsFetches, sigFetches, descShasumsUrl, descSigUrl, hdesc, hsu]
          | false =>
            cases hssu : info.shasums_signature_url with
            | none =>
              simp only [hssu, sharedFetch_noUrl] at h ⊢
              cases h
              simp [shasumsFetches, sigFetches, descShasumsUrl, descSigUrl, hdesc, hsu, hssu]
            | some u2 =>
              simp only [hssu, sharedFetch_some] at h ⊢
              cases hget2 : env.getFile u2 with
              | error e =>
                simp only [hget2] at h
                exact Except.noConfusion h
              | ok _ =>
                simp only [hget2] at h ⊢
                cases h
                simp [shasumsFetches, sigFetches, descShasumsUrl, descSigUrl, hdesc, hsu, hssu]
        | some u1 =>
          simp only [hsu, sharedFetch_some] at h ⊢
          cases hget1 : env.getFile u1 with
          | error e =>
            simp only [hget1] at h
            exact Except.noConfusion h
          | ok _ =>
            simp only [hget1] at h ⊢
            cases sigDone with
            | true =>
              simp only [sharedFetch_done] at h ⊢
              cases h
              simp [shasumsFetches, sigFetches, descShasumsUrl, descSigUrl, hdesc, hsu]
            | false =>
              cases hssu : info.shasums_signature_url with
              | none =>
                simp only [hssu, sharedFetch_noUrl] at h ⊢
                cases h
                simp [shasumsFetches, sigFetches, descShasumsUrl, descSigUrl, hdesc, hsu, hssu]
              | some u2 =>
                simp only [hssu, sharedFetch_some] at h ⊢
                cases hget2 : env.getFile u2 with
                | error e =>
                  simp only [hget2] at h
                  exact Except.noConfusion h
                | ok _ =>
                  simp only [hget2] at h ⊢
                  cases h
                  simp [shasumsFetches, sigFetches, descShasumsUrl, descSigUrl, hdesc, hsu, hssu]

theorem downloadLoop_shasums_trace (env : FetchEnv) (provider version : String) :
    ∀ (ps : List Platform) (shaDone sigDone : Bool) (acc files : Files),
    (downloadLoop env provider version ps shaDone sigDone acc).2 = .ok files →
    shasumsFetches (downloadLoop env provider version ps shaDone sigDone acc).1
      = if shaDone then [] else (firstShasumsUrl env ps).toList := by
  intro ps
  induction ps with
  | nil =>
    intro shaDone sigDone acc files _
    cases shaDone <;> simp [downloadLoop, firstShasumsUrl]
  | cons p rest ih =>
    intro shaDone sigDone acc files h
    simp only [downloadLoop] at h ⊢
    rcases hstep : platformStep env provider version p shaDone sigDone acc with ⟨tr, r⟩
    rw [hstep] at h
    cases r with
    | error e => exact Except.noConfusion h
    | ok trip =>
      rcases trip with ⟨sha', sig', acc'⟩
      dsimp only at h ⊢
      have hnext := ih sha' sig' acc' files h
      have hstep2 : (platformStep env provider version p shaDone sigDone acc).2
          = .ok (sha', sig', acc') := by rw [hstep]
      obtain ⟨hsha, -, hsha', -⟩ := platformStep_trace env provider version p
        shaDone sigDone acc sha' sig' acc' hstep2
      rw [hstep] at hsha
      dsimp only at hsha
      rw [shasumsFetches_append, hsha, hnext, hsha']
      cases shaDone with
      | true => simp
      | false =>
        cases hdu : descShasumsUrl env p with
        | none => simp [firstShasumsUrl, List.findSome?_cons, hdu]
        | some u => simp [firstShasumsUrl, List.findSome?_cons, hdu]

theorem downloadLoop_sig_trace (env : FetchEnv) (provider version : String) :
    ∀ (ps : List Platform) (shaDone sigDone : Bool) (acc files : Files),
    (downloadLoop env provider version ps shaDone sigDone acc).2 = .ok files →
    sigFetches (downloadLoop env provider version ps shaDone sigDone acc).1
      = if sigDone then [] else (firstSigUrl env ps).toList := by
  intro ps
  induction ps with
  | nil =>
    intro shaDone sigDone acc files _
    cases sigDone <;> simp [downloadLoop, firstSigUrl]
  | cons p rest ih =>
    intro shaDone sigDone acc files h
    simp only [downloadLoop] at h ⊢
    rcases hstep : platformStep env provider version p shaDone sigDone acc with ⟨tr, r⟩
    rw [hstep] at h
    cases r with
    | error e => exact Except.noConfusion h
    | ok trip =>
      rcases trip with ⟨sha', sig', acc'⟩
      dsimp only at h ⊢
      have hnext := ih sha' sig' acc' files h
      have hstep2 : (platformStep env provider version p shaDone sigDone acc).2
          = .ok (sha', sig', acc') := by rw [hstep]
      obtain ⟨-, hsig, -, hsig'⟩ := platformStep_trace env provider version p
        shaDone sigDone acc sha' sig' acc' hstep2
      rw [hstep] at hsig
      dsimp only at hsig
      rw [sigFetches_append, hsig, hnext, hsig']
      cases sigDone with
      | true => simp
      | false =>
        cases hdu : descSigUrl env p with
        | none => simp [firstSigUrl, List.findSome?_cons, hdu]
        | some u => simp [firstSigUrl, List.findSome?_cons, hdu]

/-- C2: on every fetch that returns a manifest, the shared
checksum-manifest and signature are each downloaded at most once,
regardless of how many platforms were requested: each is fetched exactly
at the first platform whose descriptor reports a non-null location (never
refetched for later platforms even if their descriptors repeat the same
locations), and not at all when no descriptor reports one. -/
theorem shared_artifacts_fetched_once (env : FetchEnv) (provider version : String)
    (platforms : List Platform) (files : Files)
    (h : (download_provider env provider version platforms).2 = .ok files) :
    (shasumsFetches (download_provider env provider version platforms).1).length ≤ 1 ∧
    (sigFetches (download_provider env provider version platforms).1).length ≤ 1 ∧
    shasumsFetches (download_provider env provider version platforms).1
      = (firstShasumsUrl env platforms).toList ∧
    sigFetches (download_provider env provider version platforms).1
      = (firstSigUrl env platforms).toList := by
  simp only [download_provider] at h ⊢
  have hs := downloadLoop_shasums_trace env provider version platforms false false
    { binaries := [], shasums := none, signature := none } files h
  have hg := downloadLoop_sig_trace env provider version platforms false false
    { binaries := [], shasums := none, signature := none } files h
  simp only [Bool.false_eq_true, if_false] at hs hg
  refine ⟨?_, ?_, hs, hg⟩
  · rw [hs]; cases firstShasumsUrl env platforms <;> simp
  · rw [hg]; cases firstSigUrl env platforms <;> simp

/-- A fetch environment where every descriptor reports the same shared
locations and every retrieval succeeds. -/
def fenvDemo : FetchEnv where
  descriptor := fun _ _ => .ok
    { download_url := "https://example/bin.zip"
      shasums_url := some "https://example/SHA256SUMS"
      shasums_signature_url := some "https://example/SHA256SUMS.sig" }
  getFile := fun _ => .ok ()

def demoPlatforms : List Platform := [⟨"linux", "amd64"⟩, ⟨"darwin", "arm64"⟩]

/-- C2 witness: two platforms whose descriptors repeat the same shared
locations still fetch each shared artifact exactly once. -/
theorem shared_artifacts_fetched_once_witness :
    (shasumsFetches (download_provider fenvDemo "aws" "1.0.0" demoPlatforms).1).length ≤ 1 ∧
    (sigFetches (download_provider fenvDemo "aws" "1.0.0" demoPlatforms).1).length ≤ 1 ∧
    shasumsFetches (download_provider fenvDemo "aws" "1.0.0" demoPlatforms).1
      = (firstShasumsUrl fenvDemo demoPlatforms).toList ∧
    sigFetches (download_provider fenvDemo "aws" "1.0.0" demoPlatforms).1
      = (firstSigUrl fenvDemo demoPlatforms).toList :=
  shared_artifacts_fetched_once fenvDemo "aws" "1.0.0" demoPlatforms
    { binaries := [
        { os := "linux", arch := "amd64",
          filename := "terraform-provider-aws_1.0.0_linux_amd64.zip",
          path := "terraform-provider-aws_1.0.0_linux_amd64.zip" },
        { os := "darwin", arch := "arm64",
          filename := "terraform-provider-aws_1.0.0_darwin_arm64.zip",
          path := "terraform-provider-aws_1.0.0_darwin_arm64.zip" }]
      shasums := some "terraform-provider-aws_1.0.0_SHA256SUMS"
      signature := some "terraform-provider-aws_1.0.0_SHA256SUMS.sig" } (by rfl)

/-- If some requested platform's descriptor fetch fails, or some platform
whose descriptor succeeds has a failing binary retrieval, the loop ends in
an error no matter where it is started. -/
theorem downloadLoop_error_of_failure (env : FetchEnv) (provider version : String) :
    ∀ (ps : List Platform) (shaDone sigDone : Bool) (acc : Files),
    ((∃ p ∈ ps, ∃ e, env.descriptor p.os p.arch = .error e) ∨
     (∃ p ∈ ps, ∃ info, env.descriptor p.os p.arch = .ok info ∧
        ∃ e, env.getFile info.download_url = .error e)) →
    ∃ e, (downloadLoop env provider version ps shaDone sigDone acc).2 = .error e := by
  intro ps
  induction ps with
  | nil =>
    intro shaDone sigDone acc h
    rcases h with ⟨p, hp, -⟩ | ⟨p, hp, -⟩ <;> exact absurd hp (List.not_mem_nil p)
  | cons p rest ih =>
    intro shaDone sigDone acc h
    simp only [downloadLoop]
    rcases hstep : platformStep env provider version p shaDone sigDone acc with ⟨tr, r⟩
    cases r with
    | error e => exact ⟨e, rfl⟩
    | ok trip =>
      rcases trip with ⟨sha', sig', acc'⟩
      dsimp only
      -- the head platform succeeded, so the failure witness lives in `rest`
      cases hd : env.descriptor p.os p.arch with
      | error e =>
        simp only [platformStep, hd] at hstep
        exact absurd (congrArg Prod.snd hstep) (by simp)
      | ok info =>
        cases hb : env.getFile info.download_url with
        | error e =>
          simp only [platformStep, hd, hb] at hstep
          exact absurd (congrArg Prod.snd hstep) (by simp)
        | ok _ =>
          apply ih
          rcases h with ⟨q, hq, e, he⟩ | ⟨q, hq, info', hinfo', e, he⟩
          · rcases List.mem_cons.mp hq with rfl | hq'
            · rw [hd] at he; exact Except.noConfusion he
            · exact Or.inl ⟨q, hq', e, he⟩
          · rcases List.mem_cons.mp hq with rfl | hq'
            · rw [hd] at hinfo'
              have : info = info' := by
                injection hinfo'
              rw [← this] at he
              rw [hb] at he
              exact Except.noConfusion he
            · exact Or.inr ⟨q, hq', info', hinfo', e, he⟩

/-- A step that runs with the checksum-manifest flag down and whose
platform reports a checksum-manifest location can only succeed if that
location's retrieval succeeded — a failing retrieval aborts the step. -/
theorem platformStep_ok_no_shasums_error (env : FetchEnv) (provider version : String)
    (p : Platform) (sigDone : Bool) (acc : Files) (sha' sig' : Bool) (acc' : Files)
    (u : String)
    (hok : (platformStep env provider version p false sigDone acc).2 = .ok (sha', sig', acc'))
    (hdu : descShasumsUrl env p = some u) :
    ∀ e, env.getFile u ≠ .error e := by
  intro e he
  cases hdesc : env.descriptor p.os p.arch with
  | error e' =>
    simp only [platformStep, hdesc] at hok
    exact Except.noConfusion hok
  | ok info =>
    have hsu : info.shasums_url = some u := by
      simpa [descShasumsUrl, hdesc] using hdu
    cases hbin : env.getFile info.download_url with
    | error e' =>
      simp only [platformStep, hdesc, hbin] at hok
      exact Except.noConfusion hok
    | ok _ =>
      simp only [platformStep, hdesc, hbin, hsu, sharedFetch_some, he] at hok
      exact Except.noConfusion hok

/-- Likewise for the signature block (which runs after the
checksum-manifest block, whatever that block did). -/
theorem platformStep_ok_no_sig_error (env : FetchEnv) (provider version : String)
    (p : Platform) (shaDone : Bool) (acc : Files) (sha' sig' : Bool) (acc' : Files)
    (u : String)
    (hok : (platformStep env provider version p shaDone false acc).2 = .ok (sha', sig', acc'))
    (hdu : descSigUrl env p = some u) :
    ∀ e, env.getFile u ≠ .error e := by
  intro e he
  cases hdesc : env.descriptor p.os p.arch with
  | error e' =>
    simp only [platformStep, hdesc] at hok
    exact Except.noConfusion hok
  | ok info =>
    have hsu : info.shasums_signature_url = some u := by
      simpa [descSigUrl, hdesc] using hdu
    cases hbin : env.getFile info.download_url with
    | error e' =>
      simp only [platformStep, hdesc, hbin] at hok
      exact Except.noConfusion hok
    | ok _ =>
      cases shaDone with
      | true =>
        simp only [platformStep, hdesc, hbin, sharedFetch_done, hsu, sharedFetch_some,
          he] at hok
        exact Except.noConfusion hok
      | false =>
        cases hsha : info.shasums_url with
        | none =>
          simp only [platformStep, hdesc, hbin, hsha, sharedFetch_noUrl, hsu,
            sharedFetch_some, he] at hok
          exact Except.noConfusion hok
        | some w =>
          cases hgw : env.getFile w with
          | error e'' =>
            simp only [platformStep, hdesc, hbin, hsha, sharedFetch_some, hgw] at hok
            exact Except.noConfusion hok
          | ok _ =>
            simp only [platformStep, hdesc, hbin, hsha, sharedFetch_some, hgw, hsu,
              he] at hok
            exact Except.noConfusion hok

/-- If the first non-null checksum-manifest location across the remaining
platforms has a failing retrieval, a loop started with the
checksum-manifest flag down ends in an error: the failing fetch is
attempted at that first platform unless an earlier retrieval already
aborted the run. -/
theorem downloadLoop_error_of_shasums_failure (env : FetchEnv) (provider version : String) :
    ∀ (ps : List Platform) (sigDone : Bool) (acc : Files),
    (∃ u, firstShasumsUrl env ps = some u ∧ ∃ e, env.getFile u = .error e) →
    ∃ e, (downloadLoop env provider version ps false sigDone acc).2 = .error e := by
  intro ps
  induction ps with
  | nil =>
    intro sigDone acc h
    obtain ⟨u, hu, -⟩ := h
    simp [firstShasumsUrl] at hu
  | cons p rest ih =>
    intro sigDone acc h
    obtain ⟨u, hu, e, he⟩ := h
    simp only [downloadLoop]
    rcases hstep : platformStep env provider version p false sigDone acc with ⟨tr, r⟩
    cases r with
    | error e' => exact ⟨e', rfl⟩
    | ok trip =>
      rcases trip with ⟨sha', sig', acc'⟩
      dsimp only
      have hstep2 : (platformStep env provider version p false sigDone acc).2
          = .ok (sha', sig', acc') := by rw [hstep]
      cases hdu : descShasumsUrl env p with
      | some v =>
        simp only [firstShasumsUrl, List.findSome?_cons, hdu, Option.some.injEq] at hu
        have hne := platformStep_ok_no_shasums_error env provider version p sigDone acc
          sha' sig' acc' v hstep2 hdu
        rw [hu] at hne
        exact absurd he (hne e)
      | none =>
        obtain ⟨-, -, hsha', -⟩ := platformStep_trace env provider version p false sigDone
          acc sha' sig' acc' hstep2
        rw [hdu] at hsha'
        simp only [Option.isSome_none, Bool.or_false] at hsha'
        subst hsha'
        simp only [firstShasumsUrl, List.findSome?_cons, hdu] at hu
        exact ih sig' acc' ⟨u, hu, e, he⟩

/-- The signature twin of the previous lemma. -/
theorem downloadLoop_error_of_sig_failure (env : FetchEnv) (provider version : String) :
    ∀ (ps : List Platform) (shaDone : Bool) (acc : Files),
    (∃ u, firstSigUrl env ps = some u ∧ ∃ e, env.getFile u = .error e) →
    ∃ e, (downloadLoop env provider version ps shaDone false acc).2 = .error e := by
  intro ps
  induction ps with
  | nil =>
    intro shaDone acc h
    obtain ⟨u, hu, -⟩ := h
    simp [firstSigUrl] at hu
  | cons p rest ih =>
    intro shaDone acc h
    obtain ⟨u, hu, e, he⟩ := h
    simp only [downloadLoop]
    rcases hstep : platformStep env provider version p shaDone false acc with ⟨tr, r⟩
    cases r with
    | error e' => exact ⟨e', rfl⟩
    | ok trip =>
      rcases trip with ⟨sha', sig', acc'⟩
      dsimp only
      have hstep2 : (platformStep env provider version p shaDone false acc).2
          = .ok (sha', sig', acc') := by rw [hstep]
      cases hdu : descSigUrl env p with
      | some v =>
        simp only [firstSigUrl, List.findSome?_cons, hdu, Option.some.injEq] at hu
        have hne := platformStep_ok_no_sig_error env provider version p shaDone acc
          sha' sig' acc' v hstep2 hdu
        rw [hu] at hne
        exact absurd he (hne e)
      | none =>
        obtain ⟨-, -, -, hsig'⟩ := platformStep_trace env provider version p shaDone false
          acc sha' sig' acc' hstep2
        rw [hdu] at hsig'
        simp only [Option.isSome_none, Bool.or_false] at hsig'
        subst hsig'
        simp only [firstSigUrl, List.findSome?_cons, hdu] at hu
        exact ih sha' acc' ⟨u, hu, e, he⟩

/-! ## Private registry publisher
(`upload_to_hcp`, `download_and_upload.py:196-248`, and the identical
protocol reading from S3, `upload_from_s3.py:144-211`) -/

/-- `links` of the create-version response: the two presigned upload
targets. -/
structure VersionLinks where
  shasumsUpload : String
  shasumsSigUpload : String
deriving DecidableEq, Repr

/-- `links` of the create-platform response. -/
structure PlatformLinks where
  binaryUpload : String
deriving DecidableEq, Repr

/-- One remote call of the publish protocol, in order.  `checkVersion`
models the version-existence probe of `check_version.py`, which runs
upstream of the pipeline; the publish protocol itself never performs
it. -/
inductive PubAction
  | checkProvider
  | checkVersion
  | createProviderCall
  | createVersionCall
  | uploadShasums (url : String)
  | uploadSignature (url : String)
  | createPlatformCall (os arch filename : String)
  | uploadBinary (filename url : String)
deriving DecidableEq, Repr

/-- The remote side of the publish: what each call of the protocol
answers.  `providerExists` is the result of `check_provider_exists`
(status == 200); the create calls answer with their `raise_for_status`
outcome; `putFile` is the presigned PUT of `upload_file_to_url`;
`digest` is `calculate_shasum` on a local path. -/
structure PubEnv where
  providerExists : Bool
  createProviderResult : Except NetErr Unit
  createVersionResult : Except NetErr VersionLinks
  createPlatformResult : String → String → String → String → Except NetErr PlatformLinks
  putFile : String → Except NetErr Unit
  digest : String → String

/-- The dict `upload_to_hcp` returns. -/
structure PubResult where
  platforms_count : Nat
deriving DecidableEq, Repr

/-- The `for binary_info in files['binaries']` loop
(`download_and_upload.py:230-244`): per binary, in manifest order, compute
the digest, create the platform resource, upload the binary to the
returned target, and bump `platforms_uploaded`; the first failure
propagates out of the loop. -/
def uploadBinariesLoop (env : PubEnv) :
    List BinaryEntry → Nat → List PubAction × Except NetErr Nat
  | [], n => ([], .ok n)
  | b :: rest, n =>
    let shasum := env.digest b.path
    match env.createPlatformResult b.os b.arch b.filename shasum with
    | .error e => ([.createPlatformCall b.os b.arch b.filename], .error e)
    | .ok links =>
      match env.putFile links.binaryUpload with
      | .error e => ([.createPlatformCall b.os b.arch b.filename,
                      .uploadBinary b.filename links.binaryUpload], .error e)
      | .ok _ =>
        let next := uploadBinariesLoop env rest (n + 1)
        (.createPlatformCall b.os b.arch b.filename
          :: .uploadBinary b.filename links.binaryUpload :: next.1, next.2)

/-- The publish steps from create-version on
(`download_and_upload.py:213-248`): the create-version POST (no existence
check guards it), the two shared uploads — a `None` shared location makes
the local `open`/S3 read raise before any PUT, modelled `.error
.transport` — then the binary loop. -/
def afterProvider (env : PubEnv) (files : Files) :
    List PubAction × Except NetErr PubResult :=
  match env.createVersionResult with
  | .error e => ([.createVersionCall], .error e)
  | .ok links =>
    match files.shasums with
    | none => ([.createVersionCall], .error .transport)
    | some _ =>
      match env.putFile links.shasumsUpload with
      | .error e => ([.createVersionCall, .uploadShasums links.shasumsUpload], .error e)
      | .ok _ =>
        match files.signature with
        | none => ([.createVersionCall, .uploadShasums links.shasumsUpload],
                   .error .transport)
        | some _ =>
          match env.putFile links.shasumsSigUpload with
          | .error e => ([.createVersionCall, .uploadShasums links.shasumsUpload,
                          .uploadSignature links.shasumsSigUpload], .error e)
          | .ok _ =>
            let next := uploadBinariesLoop env files.binaries 0
            ([.createVersionCall, .uploadShasums links.shasumsUpload,
              .uploadSignature links.shasumsSigUpload] ++ next.1,
             next.2.map fun n => { platforms_count := n })

/-- `upload_to_hcp` (`download_and_upload.py:196-248`): check provider
existence, create the provider only when absent, then the rest of the
protocol. -/
def upload_to_hcp (env : PubEnv) (files : Files) :
    List PubAction × Except NetErr PubResult :=
  if env.providerExists then
    let next := afterProvider env files
    (.checkProvider :: next.1, next.2)
  else
    match env.createProviderResult with
    | .error e => ([.checkProvider, .createProviderCall], .error e)
    | .ok _ =>
      let next := afterProvider env files
      (.checkProvider :: .createProviderCall :: next.1, next.2)

/-- `check_version_on_hcp` (`check_version.py:125-154`): the function
returns `status == 200` — every non-200 response, 404 or any error
status, reports the version as absent, and no status raises. -/
def check_version_on_hcp (status : Nat) : Bool := status == 200

/-- The fields `check_version.py`'s handler adds to the event
(`versionExists`, `shouldProcess`, `check_version.py:112-118`). -/
def check_version_handler (status : Nat) : Bool × Bool :=
  (check_version_on_hcp status, !check_version_on_hcp status)

/-- `check_provider_exists` (`download_and_upload.py:251-259`,
`upload_from_s3.py:214-225`): `status == 200`, no status raises. -/
def check_provider_exists (status : Nat) : Bool := status == 200

/-- The fetch-then-publish composition of `lambda_handler`
(`download_and_upload.py:83-101`): a fetch failure propagates out and the
publisher never runs; the Boolean records whether `upload_to_hcp` was
invoked. -/
def pipeline_run (fenv : FetchEnv) (penv : PubEnv) (provider version : String)
    (platforms : List Platform) : Except NetErr PubResult × Bool :=
  match (download_provider fenv provider version platforms).2 with
  | .error e => (.error e, false)
  | .ok files => ((upload_to_hcp penv files).2, true)

/-- The platform resources a publish trace created, in manifest order. -/
def platformCreates (tr : List PubAction) : List (String × String × String) :=
  tr.filterMap fun a => match a with
    | .createPlatformCall os arch fn => some (os, arch, fn)
    | _ => none

/-- The binary files a publish trace uploaded, in manifest order. -/
def binaryUploads (tr : List PubAction) : List String :=
  tr.filterMap fun a => match a with
    | .uploadBinary fn _ => some fn
    | _ => none

/-- Actions the binary loop may emit. -/
def isPlatformAction : PubAction → Bool
  | .createPlatformCall _ _ _ => true
  | .uploadBinary _ _ => true
  | _ => false

theorem uploadBinariesLoop_platform_only (env : PubEnv) :
    ∀ (bs : List BinaryEntry) (n : Nat) (a : PubAction),
    a ∈ (uploadBinariesLoop env bs n).1 → isPlatformAction a = true := by
  intro bs
  induction bs with
  | nil => intro n a ha; exact absurd ha (List.not_mem_nil a)
  | cons b rest ih =>
    intro n a ha
    simp only [uploadBinariesLoop] at ha
    cases hcp : env.createPlatformResult b.os b.arch b.filename (env.digest b.path) with
    | error e =>
      simp only [hcp] at ha
      simp only [List.mem_singleton] at ha
      subst ha; rfl
    | ok links =>
      simp only [hcp] at ha
      cases hput : env.putFile links.binaryUpload with
      | error e =>
        simp only [hput] at ha
        rcases List.mem_cons.mp ha with rfl | ha'
        · rfl
        · rcases List.mem_cons.mp ha' with rfl | ha''
          · rfl
          · exact absurd ha'' (List.not_mem_nil a)
      | ok _ =>
        simp only [hput] at ha
        rcases List.mem_cons.mp ha with rfl | ha'
        · rfl
        · rcases List.mem_cons.mp ha' with rfl | ha''
          · rfl
          · exact ih (n + 1) a ha''

theorem uploadBinariesLoop_ok (env : PubEnv) :
    ∀ (bs : List BinaryEntry) (n m : Nat),
    (uploadBinariesLoop env bs n).2 = .ok m →
    m = n + bs.length ∧
    platformCreates (uploadBinariesLoop env bs n).1
      = bs.map (fun b => (b.os, b.arch, b.filename)) ∧
    binaryUploads (uploadBinariesLoop env bs n).1 = bs.map (·.filename) := by
  intro bs
  induction bs with
  | nil =>
    intro n m h
    have : n = m := by simpa [uploadBinariesLoop] using h
    simp [uploadBinariesLoop, platformCreates, binaryUploads, this]
  | cons b rest ih =>
    intro n m h
    simp only [uploadBinariesLoop] at h ⊢
    cases hcp : env.createPlatformResult b.os b.arch b.filename (env.digest b.path) with
    | error e =>
      simp [hcp] at h
    | ok links =>
      simp only [hcp] at h ⊢
      cases hput : env.putFile links.binaryUpload with
      | error e =>
        simp [hput] at h
      | ok _ =>
        simp only [hput] at h ⊢
        obtain ⟨hm, hpc, hbu⟩ := ih (n + 1) m h
        refine ⟨by rw [List.length_cons]; omega, ?_, ?_⟩
        · simp [platformCreates, List.filterMap_cons] at hpc ⊢
          exact hpc
        · simp [binaryUploads, List.filterMap_cons] at hbu ⊢
          exact hbu

theorem afterProvider_actions (env : PubEnv) (files : Files) :
    ∀ a ∈ (afterProvider env files).1,
      a = .createVersionCall ∨ (∃ u, a = .uploadShasums u) ∨
      (∃ u, a = .uploadSignature u) ∨ isPlatformAction a = true := by
  intro a ha
  simp only [afterProvider] at ha
  cases hcv : env.createVersionResult with
  | error e =>
    simp only [hcv, List.mem_singleton] at ha
    exact Or.inl ha
  | ok links =>
    simp only [hcv] at ha
    cases hsha : files.shasums with
    | none =>
      simp only [hsha, List.mem_singleton] at ha
      exact Or.inl ha
    | some _ =>
      simp only [hsha] at ha
      cases hput1 : env.putFile links.shasumsUpload with
      | error e =>
        simp only [hput1] at ha
        rcases List.mem_cons.mp ha with rfl | ha'
        · exact Or.inl rfl
        · simp only [List.mem_singleton] at ha'
          exact Or.inr (Or.inl ⟨_, ha'⟩)
      | ok _ =>
        simp only [hput1] at ha
        cases hsig : files.signature with
        | none =>
          simp only [hsig] at ha
          rcases List.mem_cons.mp ha with rfl | ha'
          · exact Or.inl rfl
          · simp only [List.mem_singleton] at ha'
            exact Or.inr (Or.inl ⟨_, ha'⟩)
        | some _ =>
          simp only [hsig] at ha
          cases hput2 : env.putFile links.shasumsSigUpload with
          | error e =>
            simp only [hput2] at ha
            rcases List.mem_cons.mp ha with rfl | ha'
            · exact Or.inl rfl
            · rcases List.mem_cons.mp ha' with rfl | ha''
              · exact Or.inr (Or.inl ⟨_, rfl⟩)
              · simp only [List.mem_singleton] at ha''
                exact Or.inr (Or.inr (Or.inl ⟨_, ha''⟩))
          | ok _ =>
            simp only [hput2] at ha
            rcases List.mem_append.mp ha with hh | ht
            · rcases List.mem_cons.mp hh with rfl | hh'
              · exact Or.inl rfl
              · rcases List.mem_cons.mp hh' with rfl | hh''
                · exact Or.inr (Or.inl ⟨_, rfl⟩)
                · simp only [List.mem_singleton] at hh''
                  exact Or.inr (Or.inr (Or.inl ⟨_, hh''⟩))
            · exact Or.inr (Or.inr (Or.inr
                (uploadBinariesLoop_platform_only env files.binaries 0 a ht)))

theorem createProvider_not_in_afterProvider (env : PubEnv) (files : Files) :
    PubAction.createProviderCall ∉ (afterProvider env files).1 := by
  intro ha
  rcases afterProvider_actions env files _ ha with h | ⟨u, h⟩ | ⟨u, h⟩ | h
  all_goals simp [isPlatformAction] at h

theorem checkVersion_not_in_afterProvider (env : PubEnv) (files : Files) :
    PubAction.checkVersion ∉ (afterProvider env files).1 := by
  intro ha
  rcases afterProvider_actions env files _ ha with h | ⟨u, h⟩ | ⟨u, h⟩ | h
  all_goals simp [isPlatformAction] at h

theorem checkVersion_never (env : PubEnv) (files : Files) :
    PubAction.checkVersion ∉ (upload_to_hcp env files).1 := by
  intro ha
  simp only [upload_to_hcp] at ha
  cases hpe : env.providerExists with
  | true =>
    simp only [hpe, if_true] at ha
    rcases List.mem_cons.mp ha with h | h
    · exact PubAction.noConfusion h
    · exact checkVersion_not_in_afterProvider env files h
  | false =>
    simp only [hpe, Bool.false_eq_true, if_false] at ha
    cases hcp : env.createProviderResult with
    | error e =>
      simp only [hcp] at ha
      rcases List.mem_cons.mp ha with h | h
      · exact PubAction.noConfusion h
      · simp only [List.mem_singleton] at h
        exact PubAction.noConfusion h
    | ok _ =>
      simp only [hcp] at ha
      rcases List.mem_cons.mp ha with h | h
      · exact PubAction.noConfusion h
      · rcases List.mem_cons.mp h with h' | h'
        · exact PubAction.noConfusion h'
        · exact checkVersion_not_in_afterProvider env files h'

theorem afterProvider_conflict (env : PubEnv) (files : Files) (e : NetErr)
    (hconf : env.createVersionResult = .error e) :
    afterProvider env files = ([.createVersionCall], .error e) := by
  simp [afterProvider, hconf]

theorem afterProvider_ok (env : PubEnv) (files : Files) (r : PubResult)
    (h : (afterProvider env files).2 = .ok r) :
    r.platforms_count = files.binaries.length ∧
    platformCreates (afterProvider env files).1
      = files.binaries.map (fun b => (b.os, b.arch, b.filename)) ∧
    binaryUploads (afterProvider env files).1 = files.binaries.map (·.filename) := by
  simp only [afterProvider] at h ⊢
  cases hcv : env.createVersionResult with
  | error e => simp [hcv] at h
  | ok links =>
    simp only [hcv] at h ⊢
    cases hsha : files.shasums with
    | none => simp [hsha] at h
    | some _ =>
      simp only [hsha] at h ⊢
      cases hput1 : env.putFile links.shasumsUpload with
      | error e => simp [hput1] at h
      | ok _ =>
        simp only [hput1] at h ⊢
        cases hsig : files.signature with
        | none => simp [hsig] at h
        | some _ =>
          simp only [hsig] at h ⊢
          cases hput2 : env.putFile links.shasumsSigUpload with
          | error e => simp [hput2] at h
          | ok _ =>
            simp only [hput2] at h ⊢
            cases hloop : (uploadBinariesLoop env files.binaries 0).2 with
            | error e => rw [hloop] at h; simp [Except.map] at h
            | ok m =>
              rw [hloop] at h
              simp only [Except.map, Except.ok.injEq] at h
              obtain ⟨hm, hpc, hbu⟩ := uploadBinariesLoop_ok env files.binaries 0 m hloop
              refine ⟨?_, ?_, ?_⟩
              · rw [← h]; simpa using hm
              · simp [platformCreates, List.filterMap_append] at hpc ⊢
                exact hpc
              · simp [binaryUploads, List.filterMap_append] at hbu ⊢
                exact hbu

/-- C4: the create-version call is performed unconditionally — no
version-existence check precedes it anywhere in the publish protocol —
so when the version already exists the call answers Conflict, the whole
publish fails with that error, and no platform resource is created and
no binary is uploaded in that run. -/
theorem create_version_unconditional (env : PubEnv) (files : Files) (e : NetErr)
    (hprov : env.providerExists = true ∨ env.createProviderResult = .ok ())
    (hconf : env.createVersionResult = .error e) :
    PubAction.createVersionCall ∈ (upload_to_hcp env files).1 ∧
    (upload_to_hcp env files).2 = .error e ∧
    platformCreates (upload_to_hcp env files).1 = [] ∧
    binaryUploads (upload_to_hcp env files).1 = [] ∧
    (∀ (env' : PubEnv) (files' : Files),
      PubAction.checkVersion ∉ (upload_to_hcp env' files').1) := by
  have hafter := afterProvider_conflict env files e hconf
  cases hpe : env.providerExists with
  | true =>
    refine ⟨?_, ?_, ?_, ?_, checkVersion_never⟩ <;>
      simp [upload_to_hcp, hpe, hafter, platformCreates, binaryUploads]
  | false =>
    rcases hprov with hx | hx
    · rw [hpe] at hx; exact absurd hx (by simp)
    · refine ⟨?_, ?_, ?_, ?_, checkVersion_never⟩ <;>
        simp [upload_to_hcp, hpe, hx, hafter, platformCreates, binaryUploads]

/-- C5: for every publish run, create-provider is called exactly once and
before create-version when the existence check reports the provider
absent, and is never called when the check reports it present. -/
theorem create_provider_guard (env : PubEnv) (files : Files) :
    (env.providerExists = false →
      ((upload_to_hcp env files).1.count .createProviderCall = 1 ∧
        ∀ l1 l2, (upload_to_hcp env files).1 = l1 ++ .createVersionCall :: l2 →
          .createProviderCall ∈ l1)) ∧
    (env.providerExists = true →
      .createProviderCall ∉ (upload_to_hcp env files).1) := by
  constructor
  · intro hpe
    cases hcp : env.createProviderResult with
    | error e =>
      constructor
      · simp only [upload_to_hcp, hpe, Bool.false_eq_true, if_false, hcp]
        decide
      · intro l1 l2 heq
        simp only [upload_to_hcp, hpe, Bool.false_eq_true, if_false, hcp] at heq
        exfalso
        have hmem : PubAction.createVersionCall
            ∈ ([.checkProvider, .createProviderCall] : List PubAction) := by
          rw [heq]
          exact List.mem_append_right _ (List.mem_cons_self _ _)
        simp at hmem
    | ok _ =>
      have hnotin := createProvider_not_in_afterProvider env files
      constructor
      · simp only [upload_to_hcp, hpe, Bool.false_eq_true, if_false, hcp]
        simp [List.count_cons, List.count_eq_zero.mpr hnotin]
      · intro l1 l2 heq
        simp only [upload_to_hcp, hpe, Bool.false_eq_true, if_false, hcp] at heq
        match l1, heq with
        | [], heq => simp at heq
        | [x], heq => simp at heq
        | x :: y :: l1', heq =>
          simp only [List.cons_append, List.cons.injEq] at heq
          obtain ⟨-, hy, -⟩ := heq
          rw [← hy]
          simp
  · intro hpe ha
    simp only [upload_to_hcp, hpe, if_true] at ha
    rcases List.mem_cons.mp ha with hh | hh
    · exact PubAction.noConfusion hh
    · exact createProvider_not_in_afterProvider env files hh

/-- C9: every successful publish of a manifest with `n` platform binaries
returns `platforms_count = n`, having performed exactly one
create-platform call and one binary upload per binary, in manifest
order. -/
theorem publish_platform_count (env : PubEnv) (files : Files) (r : PubResult)
    (h : (upload_to_hcp env files).2 = .ok r) :
    r.platforms_count = files.binaries.length ∧
    platformCreates (upload_to_hcp env files).1
      = files.binaries.map (fun b => (b.os, b.arch, b.filename)) ∧
    binaryUploads (upload_to_hcp env files).1 = files.binaries.map (·.filename) := by
  cases hpe : env.providerExists with
  | true =>
    simp only [upload_to_hcp, hpe, if_true] at h ⊢
    obtain ⟨h1, h2, h3⟩ := afterProvider_ok env files r h
    refine ⟨h1, ?_, ?_⟩
    · simp [platformCreates] at h2 ⊢
      exact h2
    · simp [binaryUploads] at h3 ⊢
      exact h3
  | false =>
    simp only [upload_to_hcp, hpe, Bool.false_eq_true, if_false] at h ⊢
    cases hcp : env.createProviderResult with
    | error e => simp [hcp] at h
    | ok _ =>
      simp only [hcp] at h ⊢
      obtain ⟨h1, h2, h3⟩ := afterProvider_ok env files r h
      refine ⟨h1, ?_, ?_⟩
      · simp [platformCreates] at h2 ⊢
        exact h2
      · simp [binaryUploads] at h3 ⊢
        exact h3

/-- C10: the existence probes never distinguish errors from absence — for
every response status other than 200 (404, 403, 500, ...), the
version-existence check reports the version absent (`shouldProcess`
true) and the provider-existence check reports the provider absent, so
create-provider is attempted, and no status makes either probe raise. -/
theorem probes_treat_errors_as_absence (status : Nat) (env : PubEnv) (files : Files)
    (h : status ≠ 200) :
    check_version_on_hcp status = false ∧
    (check_version_handler status).2 = true ∧
    check_provider_exists status = false ∧
    PubAction.createProviderCall ∈
      (upload_to_hcp { env with providerExists := check_provider_exists status } files).1 := by
  have hb : (status == 200) = false := beq_eq_false_iff_ne.mpr h
  have hfalse : check_provider_exists status = false := by
    simp [check_provider_exists, hb]
  refine ⟨hb, by simp [check_version_handler, check_version_on_hcp, hb], hb, ?_⟩
  simp only [upload_to_hcp, hfalse, Bool.false_eq_true, if_false]
  cases hcp : env.createProviderResult with
  | error e => simp [hcp]
  | ok _ => simp [hcp]

/-- C6: if the source registry reports no download for a requested
platform (404 on the descriptor), or any network-layer retrieval the run
performs fails — a platform's binary retrieval, or the retrieval of the
shared checksum-manifest or signature at the first descriptor that
reports its location — the fetch returns no manifest at all and the
publisher is never invoked. -/
theorem fetch_failure_aborts (fenv : FetchEnv) (penv : PubEnv) (provider version : String)
    (platforms : List Platform)
    (h : (∃ p ∈ platforms, ∃ e, fenv.descriptor p.os p.arch = .error e) ∨
         (∃ p ∈ platforms, ∃ info, fenv.descriptor p.os p.arch = .ok info ∧
            ∃ e, fenv.getFile info.download_url = .error e) ∨
         (∃ u, firstShasumsUrl fenv platforms = some u ∧ ∃ e, fenv.getFile u = .error e) ∨
         (∃ u, firstSigUrl fenv platforms = some u ∧ ∃ e, fenv.getFile u = .error e)) :
    (∃ e, (download_provider fenv provider version platforms).2 = .error e) ∧
    (∀ files, (download_provider fenv provider version platforms).2 ≠ .ok files) ∧
    (pipeline_run fenv penv provider version platforms).2 = false := by
  have herr : ∃ e, (downloadLoop fenv provider version platforms false false
      { binaries := [], shasums := none, signature := none }).2 = .error e := by
    rcases h with h | h | h | h
    · exact downloadLoop_error_of_failure fenv provider version platforms false false
        { binaries := [], shasums := none, signature := none } (Or.inl h)
    · exact downloadLoop_error_of_failure fenv provider version platforms false false
        { binaries := [], shasums := none, signature := none } (Or.inr h)
    · exact downloadLoop_error_of_shasums_failure fenv provider version platforms false
        { binaries := [], shasums := none, signature := none } h
    · exact downloadLoop_error_of_sig_failure fenv provider version platforms false
        { binaries := [], shasums := none, signature := none } h
  obtain ⟨e, he⟩ := herr
  have he' : (download_provider fenv provider version platforms).2 = .error e := he
  refine ⟨⟨e, he'⟩, ?_, ?_⟩
  · intro files hok
    rw [he'] at hok
    exact Except.noConfusion hok
  · simp [pipeline_run, he']

/-! ### Concrete environments for the witnesses -/

/-- A publish environment where the provider is absent and every remote
call succeeds. -/
def penvDemo : PubEnv where
  providerExists := false
  createProviderResult := .ok ()
  createVersionResult := .ok
    { shasumsUpload := "https://up/shasums", shasumsSigUpload := "https://up/sig" }
  createPlatformResult := fun _ _ _ _ => .ok { binaryUpload := "https://up/bin" }
  putFile := fun _ => .ok ()
  digest := fun _ => "d0"

/-- A publish environment where the provider already exists and the
create-version call answers 409 Conflict. -/
def penvConflict : PubEnv :=
  { penvDemo with providerExists := true,
                  createVersionResult := .error (.httpStatus 409) }

/-- A three-binary manifest. -/
def demoFiles : Files where
  binaries := [
    { os := "linux", arch := "amd64", filename := "p_linux_amd64.zip",
      path := "p_linux_amd64.zip" },
    { os := "darwin", arch := "arm64", filename := "p_darwin_arm64.zip",
      path := "p_darwin_arm64.zip" },
    { os := "windows", arch := "amd64", filename := "p_windows_amd64.zip",
      path := "p_windows_amd64.zip" }]
  shasums := some "SHA256SUMS"
  signature := some "SHA256SUMS.sig"

/-- A fetch environment whose descriptor requests all answer 404. -/
def fenvFail : FetchEnv where
  descriptor := fun _ _ => .error (.httpStatus 404)
  getFile := fun _ => .ok ()

/-- C4 witness: provider present, create-version answers 409. -/
theorem create_version_unconditional_witness :
    PubAction.createVersionCall ∈ (upload_to_hcp penvConflict demoFiles).1 ∧
    (upload_to_hcp penvConflict demoFiles).2 = .error (.httpStatus 409) ∧
    platformCreates (upload_to_hcp penvConflict demoFiles).1 = [] ∧
    binaryUploads (upload_to_hcp penvConflict demoFiles).1 = [] ∧
    (∀ (env' : PubEnv) (files' : Files),
      PubAction.checkVersion ∉ (upload_to_hcp env' files').1) :=
  create_version_unconditional penvConflict demoFiles (.httpStatus 409)
    (Or.inl rfl) rfl

/-- C9 witness: three binaries yield a count of three. -/
theorem publish_platform_count_witness :
    PubResult.platforms_count { platforms_count := 3 } = demoFiles.binaries.length ∧
    platformCreates (upload_to_hcp penvDemo demoFiles).1
      = demoFiles.binaries.map (fun b => (b.os, b.arch, b.filename)) ∧
    binaryUploads (upload_to_hcp penvDemo demoFiles).1
      = demoFiles.binaries.map (·.filename) :=
  publish_platform_count penvDemo demoFiles { platforms_count := 3 } (by rfl)

/-- C10 witness: a 500 response is treated as absence by both probes. -/
theorem probes_treat_errors_as_absence_witness :
    check_version_on_hcp 500 = false ∧
    (check_version_handler 500).2 = true ∧
    check_provider_exists 500 = false ∧
    PubAction.createProviderCall ∈
      (upload_to_hcp { penvDemo with providerExists := check_provider_exists 500 } demoFiles).1 :=
  probes_treat_errors_as_absence 500 penvDemo demoFiles (by decide)

/-- C6 witness: a 404 descriptor answer aborts the fetch and the
publisher never runs. -/
theorem fetch_failure_aborts_witness :
    (∃ e, (download_provider fenvFail "aws" "1.0.0" demoPlatforms).2 = .error e) ∧
    (∀ files, (download_provider fenvFail "aws" "1.0.0" demoPlatforms).2 ≠ .ok files) ∧
    (pipeline_run fenvFail penvDemo "aws" "1.0.0" demoPlatforms).2 = false :=
  fetch_failure_aborts fenvFail penvDemo "aws" "1.0.0" demoPlatforms
    (Or.inl ⟨⟨"linux", "amd64"⟩, by decide, ⟨.httpStatus 404, rfl⟩⟩)

end TFSync
